import Mathlib

/-!
Verification development for the cafe-planner repository.

The definitions below are a shallow embedding of the relevant source code:
`src/types.ts` (data model), `src/App.tsx` (board rules, handlers, drag
logic), `src/utils/export.ts` (import/export and validation) and the
`TaskCard` fallback rendering.  JavaScript millisecond timestamps are
modelled as `Nat` (values of `Date.now()`), epoch arithmetic that can go
negative as `Int`, fallible operations as `Except`/`Option`, and the JSON
file produced by `JSON.stringify` / consumed by `JSON.parse` as an explicit
`Json` syntax tree (`stringify` followed by `parse` is the identity on that
tree, so tree equality is byte-for-byte equality of the serialized file).
-/

namespace CafePlanner

/-- The three fixed time blocks (`types.ts`: `TimeBlock`). -/
inductive TimeBlock
  | morning
  | afternoon
  | evening
deriving DecidableEq

/-- Task status (`types.ts`: `TaskStatus`). -/
inductive TaskStatus
  | active
  | completed
deriving DecidableEq

/-- The seven fixed palette names (`types.ts`: `ColorTheme`). -/
inductive ColorTheme
  | sky
  | violet
  | orange
  | rose
  | emerald
  | amber
  | slate
deriving DecidableEq

/-- The string form of a time block, as it appears in JSON files and as the
droppable container ids `morning` / `afternoon` / `evening` in `App.tsx`. -/
def TimeBlock.name : TimeBlock → String
  | .morning => "morning"
  | .afternoon => "afternoon"
  | .evening => "evening"

/-- Recover a `TimeBlock` from its string form; mirrors the check
`['morning', 'afternoon', 'evening'].includes(overId)` in `handleDragOver`. -/
def TimeBlock.ofString? (s : String) : Option TimeBlock :=
  if s = "morning" then some TimeBlock.morning
  else if s = "afternoon" then some TimeBlock.afternoon
  else if s = "evening" then some TimeBlock.evening
  else none

/-- The string form of a status, as it appears in JSON files. -/
def TaskStatus.name : TaskStatus → String
  | .active => "active"
  | .completed => "completed"

/-- The string form of a palette name, as it appears in JSON files. -/
def ColorTheme.name : ColorTheme → String
  | .sky => "sky"
  | .violet => "violet"
  | .orange => "orange"
  | .rose => "rose"
  | .emerald => "emerald"
  | .amber => "amber"
  | .slate => "slate"

/-- `types.ts`: `Category`. -/
structure Category where
  id : String
  label : String
  icon : String
  theme : ColorTheme
deriving DecidableEq

/-- `types.ts`: `Task`.  `completedAt` is the optional completion timestamp;
`createdAt` is the creation timestamp written by `App.tsx` (optional there,
because legacy records may lack it until migrated). -/
structure Task where
  id : String
  title : String
  categoryId : String
  timeBlock : TimeBlock
  status : TaskStatus
  completedAt : Option Nat
  createdAt : Option Nat
deriving DecidableEq

/-- `types.ts`: `Note`. -/
structure Note where
  id : String
  content : String
  createdAt : Nat
  theme : ColorTheme
deriving DecidableEq

/-! ### Board visibility rule (`App.tsx` lines 154-191) -/

def msPerMinute : Int := 60000

def msPerDay : Int := 86400000

/-- JavaScript `d.setHours(0, 0, 0, 0)` followed by `d.getTime()`, for an
environment whose `getTimezoneOffset()` is `userOffsetMinutes` (minutes west
of UTC): floor the local wall-clock time of the instant `t` to the start of
its local day and convert back to an epoch timestamp. -/
def localMidnight (userOffsetMinutes t : Int) : Int :=
  Int.fdiv (t - userOffsetMinutes * msPerMinute) msPerDay * msPerDay
    + userOffsetMinutes * msPerMinute

/-- `App.tsx` `getBeijingTodayStart`, with the environment made explicit:
`now` is `Date.now()` and `userOffsetMinutes` is `getTimezoneOffset()`. -/
def getBeijingTodayStart (now userOffsetMinutes : Int) : Int :=
  let beijingOffsetMinutes : Int := -8 * 60
  let diffMinutes : Int := beijingOffsetMinutes - userOffsetMinutes
  let beijingTime : Int := now + diffMinutes * 60 * 1000
  localMidnight userOffsetMinutes beijingTime

/-- Modelled from the spec: "the current date evaluated in a fixed UTC+8
offset" — the epoch timestamp of the most recent UTC+8 midnight at or
before `now`.  Written from the spec's words to compare against
`getBeijingTodayStart`, which is the code's computation. -/
def utc8DayStart (now : Int) : Int :=
  Int.fdiv (now + 480 * msPerMinute) msPerDay * msPerDay - 480 * msPerMinute

/-- `App.tsx` `shouldHideTask`.  `todayStart` is the value of
`getBeijingTodayStart()`.  The JavaScript guard `!task.completedAt` is true
both for a missing `completedAt` and for the (falsy) value `0`. -/
def shouldHideTask (todayStart : Int) (t : Task) : Bool :=
  if t.status ≠ TaskStatus.completed then false
  else
    match t.completedAt with
    | none => false
    | some c => if c = 0 then false else decide ((c : Int) < todayStart)

/-- `App.tsx` `getTasksByBlock`: the lane query for one time block. -/
def getTasksByBlock (todayStart : Int) (tasks : List Task) (block : TimeBlock) :
    List Task :=
  tasks.filter fun t => decide (t.timeBlock = block) && ! shouldHideTask todayStart t

/-- `App.tsx` `calculateProgress`, with the real-number arithmetic carried
out in `ℚ` (the operands are small integer counts). -/
def calculateProgress (todayStart : Int) (tasks : List Task) : ℚ :=
  let visibleTasks := tasks.filter fun t => ! shouldHideTask todayStart t
  if visibleTasks.length = 0 then 0
  else
    let completed :=
      (visibleTasks.filter fun t => decide (t.status = TaskStatus.completed)).length
    ((completed : ℚ) / (visibleTasks.length : ℚ)) * 100

/-! ### Status toggle (`App.tsx` lines 193-207) -/

/-- The update `handleToggleStatus` applies to the matched task;
`now` is the value of `Date.now()` at the toggle. -/
def toggleTask (now : Nat) (t : Task) : Task :=
  let newStatus :=
    if t.status = TaskStatus.active then TaskStatus.completed else TaskStatus.active
  { t with
    status := newStatus
    completedAt := if newStatus = TaskStatus.completed then some now else none }

/-- `App.tsx` `handleToggleStatus` on the task list. -/
def handleToggleStatus (now : Nat) (id : String) (tasks : List Task) : List Task :=
  tasks.map fun t => if t.id = id then toggleTask now t else t

/-! ### Create handlers and reachable states (`App.tsx` lines 211-283) -/

/-- `App.tsx` `DEFAULT_CATEGORIES` (the seed data). -/
def DEFAULT_CATEGORIES : List Category :=
  [ { id := "cat1", label := "默认分区1", icon := "📚", theme := ColorTheme.amber },
    { id := "cat2", label := "默认分区2", icon := "🥐", theme := ColorTheme.rose } ]

/-- `App.tsx` `INITIAL_TASKS` (empty). -/
def INITIAL_TASKS : List Task := []

/-- `App.tsx` `handleAddTask`; the new id is `Date.now().toString()`. -/
def handleAddTask (now : Nat) (title categoryId : String) (timeBlock : TimeBlock)
    (tasks : List Task) : List Task :=
  tasks ++ [{ id := Nat.repr now, title := title, categoryId := categoryId,
              timeBlock := timeBlock, status := TaskStatus.active,
              completedAt := none, createdAt := some now }]

/-- `App.tsx` `handleAddCategory`; the new id is `Date.now().toString()`. -/
def handleAddCategory (now : Nat) (label : String) (theme : ColorTheme) (icon : String)
    (categories : List Category) : List Category :=
  categories ++ [{ id := Nat.repr now, label := label, theme := theme, icon := icon }]

/-- `App.tsx` `handleAddNote`; the new id is `Date.now().toString()` and the
new note is prepended.  The randomly chosen theme is a parameter. -/
def handleAddNote (now : Nat) (content : String) (theme : ColorTheme)
    (notes : List Note) : List Note :=
  { id := Nat.repr now, content := content, createdAt := now, theme := theme } :: notes

/-- The three in-memory collections of the app. -/
structure AppState where
  categories : List Category
  tasks : List Task
  quickNotes : List Note
deriving DecidableEq

/-- The state after the first-run seeding in `initData`. -/
def initialState : AppState :=
  { categories := DEFAULT_CATEGORIES, tasks := INITIAL_TASKS, quickNotes := [] }

/-- One create operation, tagged with the `Date.now()` reading it uses. -/
inductive CreateOp
  | addTask (now : Nat) (title categoryId : String) (timeBlock : TimeBlock)
  | addCategory (now : Nat) (label : String) (theme : ColorTheme) (icon : String)
  | addNote (now : Nat) (content : String) (theme : ColorTheme)

/-- The clock reading used by a create operation. -/
def CreateOp.time : CreateOp → Nat
  | .addTask now _ _ _ => now
  | .addCategory now _ _ _ => now
  | .addNote now _ _ => now

/-- Apply one create operation to the state. -/
def applyCreateOp (s : AppState) : CreateOp → AppState
  | .addTask now title catId blk =>
      { s with tasks := handleAddTask now title catId blk s.tasks }
  | .addCategory now label theme icon =>
      { s with categories := handleAddCategory now label theme icon s.categories }
  | .addNote now content theme =>
      { s with quickNotes := handleAddNote now content theme s.quickNotes }

/-- The state reached from the seeded initial state by a sequence of create
operations. -/
def runCreateOps (ops : List CreateOp) : AppState :=
  ops.foldl applyCreateOp initialState

/-! ### Category deletion and the fallback card (`App.tsx` 268-271, `TaskCard`) -/

/-- `App.tsx` `handleDeleteCategory` (it touches only the category list). -/
def handleDeleteCategory (id : String) (s : AppState) : AppState :=
  { s with categories := s.categories.filter fun c => ! decide (c.id = id) }

/-- `App.tsx` `getCategory`. -/
def getCategory (categories : List Category) (id : String) : Option Category :=
  categories.find? fun c => decide (c.id = id)

/-- The presentation attributes `TaskCard` derives from the (possibly
unresolved) category of a task. -/
structure CardPresentation where
  themeClass : ColorTheme
  label : String
  icon : String
  isSpecial : Bool
deriving DecidableEq

/-- `TaskCard` lines 62-68: default to the slate theme and the
"special order" label and icon when the category no longer resolves. -/
def taskCardPresentation (category : Option Category) : CardPresentation :=
  { themeClass := match category with | some c => c.theme | none => ColorTheme.slate
    label := match category with | some c => c.label | none => "特殊订单"
    icon := match category with | some c => c.icon | none => "✨"
    isSpecial := category.isNone }

/-! ### Quick notes (`App.tsx` lines 131-132, 273-288, 335) -/

/-- The descending-by-`createdAt` sort `(a, b) => b.createdAt - a.createdAt`
applied by `initData` and `handleImportData`. -/
def sortNotesDesc (notes : List Note) : List Note :=
  notes.mergeSort fun a b => decide (b.createdAt ≤ a.createdAt)

/-- `App.tsx` `initData`: the note list loaded at startup. -/
def initLoadNotes (dbNotes : List Note) : List Note := sortNotesDesc dbNotes

/-- `App.tsx` `handleImportData`: the note list installed by an import. -/
def importNotes (newNotes : List Note) : List Note := sortNotesDesc newNotes

/-- `App.tsx` `handleDeleteNote`. -/
def handleDeleteNote (id : String) (notes : List Note) : List Note :=
  notes.filter fun n => ! decide (n.id = id)

/-- Sorted by `createdAt`, newest first. -/
def NotesSortedDesc (notes : List Note) : Prop :=
  List.Pairwise (fun a b => b.createdAt ≤ a.createdAt) notes

/-! ### Import validation (`export.ts` `validateImportData`) -/

/-- The payload seen by `validateImportData`.  A collection that is missing
or not an array is `none`; a well-formed collection is `some` its list. -/
structure ImportPayload where
  categories : Option (List Category)
  tasks : Option (List Task)
  notes : Option (List Note)

/-- The result record of `validateImportData`. -/
structure ValidationResult where
  valid : Bool
  errors : List String
deriving DecidableEq

/-- The error string pushed for task number `index + 1` (0-based `index`)
whose `categoryId` resolves to no imported category. -/
def refErrMsg (index : Nat) (t : Task) : String :=
  s!"Task {index + 1} references non-existent category \x22{t.categoryId}\x22"

/-- The `data.tasks.forEach((task, index) => ...)` loop of
`validateImportData`: one error per task whose `categoryId` is not among
`validCategoryIds`. -/
def taskRefErrors (validCategoryIds : List String) : Nat → List Task → List String
  | _, [] => []
  | i, t :: ts =>
    (if validCategoryIds.contains t.categoryId then [] else [refErrMsg i t])
      ++ taskRefErrors validCategoryIds (i + 1) ts

/-- `export.ts` `validateImportData`. -/
def validateImportData (data : ImportPayload) : ValidationResult :=
  let structErrors :=
    (if data.categories.isNone then ["Missing or invalid categories"] else [])
      ++ (if data.tasks.isNone then ["Missing or invalid tasks"] else [])
      ++ (if data.notes.isNone then ["Missing or invalid notes"] else [])
  let refErrors :=
    match data.tasks, data.categories with
    | some ts, some cs => taskRefErrors (cs.map Category.id) 0 ts
    | _, _ => []
  let errors := structErrors ++ refErrors
  { valid := errors.isEmpty, errors := errors }

/-! ### JSON export / import (`export.ts`) -/

/-- A JSON value, the tree form of the exported file.  `JSON.stringify`
followed by `JSON.parse` is the identity on this tree, and the printer is
deterministic, so tree equality is byte equality of the file. -/
inductive Json
  | null
  | bool (b : Bool)
  | num (n : Int)
  | str (s : String)
  | arr (elems : List Json)
  | obj (fields : List (String × Json))

/-- `JSON.stringify` of a `Category` (field insertion order of the app). -/
def encodeCategory (c : Category) : Json :=
  Json.obj [("id", Json.str c.id), ("label", Json.str c.label),
            ("icon", Json.str c.icon), ("theme", Json.str c.theme.name)]

/-- An optional numeric property: `JSON.stringify` omits it when the value
is `undefined`. -/
def encodeOptNum (key : String) : Option Nat → List (String × Json)
  | none => []
  | some n => [(key, Json.num (n : Int))]

/-- `JSON.stringify` of a `Task`. -/
def encodeTask (t : Task) : Json :=
  Json.obj ([("id", Json.str t.id), ("title", Json.str t.title),
             ("categoryId", Json.str t.categoryId),
             ("timeBlock", Json.str t.timeBlock.name),
             ("status", Json.str t.status.name)]
    ++ encodeOptNum "completedAt" t.completedAt
    ++ encodeOptNum "createdAt" t.createdAt)

/-- `JSON.stringify` of a `Note`. -/
def encodeNote (n : Note) : Json :=
  Json.obj [("id", Json.str n.id), ("content", Json.str n.content),
            ("createdAt", Json.num (n.createdAt : Int)),
            ("theme", Json.str n.theme.name)]

/-- `export.ts` `exportDataAsJSON`: the serialized backup file, as a JSON
tree.  `exportedAt` is `new Date().toISOString()`. -/
def exportDataAsJSON (categories : List Category) (tasks : List Task)
    (notes : List Note) (exportedAt : String) : Json :=
  Json.obj [("version", Json.str "1.0"), ("exportedAt", Json.str exportedAt),
            ("categories", Json.arr (categories.map encodeCategory)),
            ("tasks", Json.arr (tasks.map encodeTask)),
            ("notes", Json.arr (notes.map encodeNote))]

/-- Property lookup on a parsed JSON value. -/
def Json.getField? : Json → String → Option Json
  | Json.obj fields, key => (fields.find? fun f => decide (f.1 = key)).map Prod.snd
  | _, _ => none

/-- The collections returned by `importDataFromJSON` (the TypeScript code
casts the parsed value, so the elements are returned as parsed). -/
structure ImportedData where
  categories : List Json
  tasks : List Json
  notes : List Json

/-- `export.ts` `importDataFromJSON` after `JSON.parse`: reject unless each
of `categories`, `tasks`, `notes` is present and an array, then return the
parsed data unchanged. -/
def importDataFromJSON (file : Json) : Except String ImportedData :=
  match file.getField? "categories" with
  | some (Json.arr cs) =>
    match file.getField? "tasks" with
    | some (Json.arr ts) =>
      match file.getField? "notes" with
      | some (Json.arr ns) => Except.ok { categories := cs, tasks := ts, notes := ns }
      | _ => Except.error "Invalid data format: missing or invalid notes"
    | _ => Except.error "Invalid data format: missing or invalid tasks"
  | _ => Except.error "Invalid data format: missing or invalid categories"

/-! ### Drag and drop (`App.tsx` lines 356-434) -/

/-- JavaScript `Array.prototype.findIndex` (`-1` when absent). -/
def jsFindIndex (p : α → Bool) (l : List α) : Int :=
  match l.findIdx? p with
  | some i => (i : Int)
  | none => -1

/-- The `arrayMove` helper of `@dnd-kit/sortable`, which the spec describes
as "a standard array move (remove at old index, insert at new index)"; it is
implemented with two `splice` calls, whose index normalization (negative
indices count from the end, large indices clamp) is reproduced here. -/
def arrayMove (l : List α) (src dst : Int) : List α :=
  let srcIdx : Nat := if src < 0 then ((l.length : Int) + src).toNat
                      else min src.toNat l.length
  if h : srcIdx < l.length then
    let moved := l.get ⟨srcIdx, h⟩
    let rest := l.eraseIdx srcIdx
    let dstShift : Int := if dst < 0 then (rest.length : Int) + dst else dst
    let dstIdx : Nat := if dstShift < 0 then ((rest.length : Int) + dstShift).toNat
                        else min dstShift.toNat rest.length
    rest.insertIdx dstIdx moved
  else l

/-- `App.tsx` `handleDragOver`.  `overIsContainer` is the dnd-kit condition
`over.data.current?.sortable?.containerId !== 'active'`, true when the
pointer is over a lane container rather than over a sortable task. -/
def handleDragOver (tasks : List Task) (activeId overId : String)
    (overIsContainer : Bool) : List Task :=
  match tasks.find? (fun t => decide (t.id = activeId)) with
  | none => tasks
  | some activeTask =>
    match (if overIsContainer then TimeBlock.ofString? overId else none) with
    | some blk =>
      if activeTask.timeBlock ≠ blk then
        tasks.map fun t => if t.id = activeId then { t with timeBlock := blk } else t
      else tasks
    | none =>
      match tasks.find? (fun t => decide (t.id = overId)) with
      | some overTask =>
        if activeTask.timeBlock ≠ overTask.timeBlock then
          tasks.map fun t =>
            if t.id = activeId then { t with timeBlock := overTask.timeBlock } else t
        else tasks
      | none => tasks

/-- The time block of the drop target of `handleDragOver`: the lane
container itself, or the lane of the task under the pointer. -/
def dropTargetBlock (tasks : List Task) (overId : String)
    (overIsContainer : Bool) : Option TimeBlock :=
  match (if overIsContainer then TimeBlock.ofString? overId else none) with
  | some blk => some blk
  | none => (tasks.find? (fun t => decide (t.id = overId))).map Task.timeBlock

/-- `App.tsx` `handleDragEnd`: a drop within a lane reorders that lane.
The indices are found in the visible lane (`getTasksByBlock`), the move is
applied to the full lane list, and the lanes are re-concatenated. -/
def handleDragEnd (todayStart : Int) (tasks : List Task)
    (activeId overId : String) : List Task :=
  match tasks.find? (fun t => decide (t.id = activeId)),
        tasks.find? (fun t => decide (t.id = overId)) with
  | some activeTask, some overTask =>
    if activeTask.timeBlock = overTask.timeBlock then
      let blockTasks := getTasksByBlock todayStart tasks activeTask.timeBlock
      let oldIndex := jsFindIndex (fun t => decide (t.id = activeId)) blockTasks
      let newIndex := jsFindIndex (fun t => decide (t.id = overId)) blockTasks
      if oldIndex ≠ newIndex then
        let currentBlockItems :=
          tasks.filter fun t => decide (t.timeBlock = activeTask.timeBlock)
        let otherItems :=
          tasks.filter fun t => ! decide (t.timeBlock = activeTask.timeBlock)
        otherItems ++ arrayMove currentBlockItems oldIndex newIndex
      else tasks
    else tasks
  | _, _ => tasks

/-! ### Proof scaffolding for `Date.now().toString()` ids

`Nat.repr` is the Lean counterpart of JavaScript's `Number.prototype.toString`
on the natural timestamps produced by `Date.now()`.  `charVal`/`digitsVal`
read a decimal digit string back as a number; they exist to prove `Nat.repr`
injective and digit-leading. -/

def charVal (c : Char) : Nat := c.toNat - 48

def digitsVal (l : List Char) : Nat :=
  List.foldl (fun a c => a * 10 + charVal c) 0 l

/-- The clock readings of the `addTask` operations of a trace, in order. -/
def taskTimes (ops : List CreateOp) : List Nat :=
  ops.filterMap fun op => match op with
    | CreateOp.addTask now _ _ _ => some now
    | _ => none

/-- The clock readings of the `addCategory` operations of a trace. -/
def catTimes (ops : List CreateOp) : List Nat :=
  ops.filterMap fun op => match op with
    | CreateOp.addCategory now _ _ _ => some now
    | _ => none

/-- The clock readings of the `addNote` operations of a trace. -/
def noteTimes (ops : List CreateOp) : List Nat :=
  ops.filterMap fun op => match op with
    | CreateOp.addNote now _ _ => some now
    | _ => none

/-! ## Theorems -/

/-- C1: the board visibility predicate hides a task exactly when it is
completed with `completedAt` strictly before the current day start in the
fixed UTC+8 offset.  The characterization is what `shouldHideTask` does
relative to `getBeijingTodayStart()`, but `getBeijingTodayStart` applies the
user-timezone correction with the wrong sign, so it equals the UTC+8 day
start only in a UTC+8 environment.  Evaluated here at `Date.now() =
1700000000000` (2023-11-14T22:13:20Z): in a UTC environment
(`getTimezoneOffset() = 0`) the code's day start is 1699920000000 while the
UTC+8 day start is 1699977600000, so a task completed at 1699956000000
(before the UTC+8 day start) is not hidden, contradicting the claim; in a
UTC+8 environment (`getTimezoneOffset() = -480`) the two agree. -/
theorem C1_beijing_day_start_eval :
    getBeijingTodayStart 1700000000000 0 = 1699920000000 ∧
    utc8DayStart 1700000000000 = 1699977600000 ∧
    getBeijingTodayStart 1700000000000 (-480) = utc8DayStart 1700000000000 ∧
    shouldHideTask (getBeijingTodayStart 1700000000000 0)
      { id := "t1", title := "x", categoryId := "c", timeBlock := TimeBlock.morning,
        status := TaskStatus.completed, completedAt := some 1699956000000,
        createdAt := some 1699950000000 } = false ∧
    ((1699956000000 : Int) < utc8DayStart 1700000000000) := by
  refine ⟨by decide, by decide, by decide, by decide, by decide⟩

/-- C2 counterexample: for a task whose original status is `completed`,
toggling twice (at times 10 and 20) returns it to `completed` but leaves
`completedAt = some 20` — the second toggle restamps it, so the field is
not cleared as the claim states. -/
theorem C2_toggle_twice_counterexample :
    (handleToggleStatus 20 "a" (handleToggleStatus 10 "a"
        [{ id := "a", title := "x", categoryId := "c", timeBlock := TimeBlock.morning,
           status := TaskStatus.completed, completedAt := some 5, createdAt := some 1 }])).map
        (fun t => t.completedAt) = [some 20] ∧ some 20 ≠ (none : Option Nat) := by
  exact ⟨by decide, by decide⟩

/-- C2 amended: toggling a task's status twice returns it to its original
status and leaves every other field and every other task unchanged; the
`completedAt` field ends unset if the task was originally active, and is
restamped to the time of the second toggle if it was originally completed. -/
theorem C2_toggle_twice_amended (now1 now2 : Nat) (id : String) (tasks : List Task) :
    handleToggleStatus now2 id (handleToggleStatus now1 id tasks) =
      tasks.map fun t =>
        if t.id = id then
          { t with completedAt :=
              if t.status = TaskStatus.active then none else some now2 }
        else t := by
  unfold handleToggleStatus
  rw [List.map_map]
  refine List.map_congr_left fun t _ => ?_
  have hid : (toggleTask now1 t).id = t.id := rfl
  have key : toggleTask now2 (toggleTask now1 t) =
      { t with completedAt := if t.status = TaskStatus.active then none else some now2 } := by
    cases t with
    | mk a b c d st e f => cases st <;> rfl
  by_cases h : t.id = id
  · simp [Function.comp, h, hid, key]
  · simp [Function.comp, h]

/-- C7: deleting a category removes exactly the categories with that id and
nothing else — the task list and note list are untouched, the surviving
categories are exactly the others (in order), the deleted id no longer
resolves, and an unresolved category renders with the slate "special order"
fallback presentation. -/
theorem C7_delete_category_frame (s : AppState) (id : String) :
    (handleDeleteCategory id s).tasks = s.tasks ∧
    (handleDeleteCategory id s).quickNotes = s.quickNotes ∧
    (handleDeleteCategory id s).categories
        = s.categories.filter (fun c => ! decide (c.id = id)) ∧
    (∀ c, c ∈ (handleDeleteCategory id s).categories ↔ c ∈ s.categories ∧ c.id ≠ id) ∧
    getCategory (handleDeleteCategory id s).categories id = none ∧
    taskCardPresentation none =
      { themeClass := ColorTheme.slate, label := "特殊订单", icon := "✨",
        isSpecial := true } := by
  refine ⟨rfl, rfl, rfl, ?_, ?_, rfl⟩
  · intro c
    simp [handleDeleteCategory, List.mem_filter]
  · refine List.find?_eq_none.mpr fun c hc => ?_
    have hmem := List.mem_filter.mp hc
    simpa using hmem.2

/-- C8: a task whose status is completed but whose `completedAt` is unset is
never hidden by the visibility predicate, and stays in the lane query of its
time block. -/
theorem C8_completed_without_timestamp_stays_visible (todayStart : Int) (t : Task)
    (hstatus : t.status = TaskStatus.completed) (hstamp : t.completedAt = none) :
    shouldHideTask todayStart t = false ∧
    ∀ tasks : List Task, t ∈ tasks → t ∈ getTasksByBlock todayStart tasks t.timeBlock := by
  have hhide : shouldHideTask todayStart t = false := by
    simp [shouldHideTask, hstatus, hstamp]
  refine ⟨hhide, fun tasks ht => ?_⟩
  refine List.mem_filter.mpr ⟨ht, ?_⟩
  simp [hhide]

/-- C8 witness: a concrete completed task with no completion timestamp is
visible in its lane. -/
theorem C8_witness :
    shouldHideTask 1700000000000
        { id := "t", title := "x", categoryId := "c", timeBlock := TimeBlock.morning,
          status := TaskStatus.completed, completedAt := none, createdAt := some 1 }
      = false ∧
    ({ id := "t", title := "x", categoryId := "c", timeBlock := TimeBlock.morning,
       status := TaskStatus.completed, completedAt := none, createdAt := some 1 } : Task)
      ∈ getTasksByBlock 1700000000000
          [{ id := "t", title := "x", categoryId := "c", timeBlock := TimeBlock.morning,
             status := TaskStatus.completed, completedAt := none, createdAt := some 1 }]
          TimeBlock.morning := by
  have h := C8_completed_without_timestamp_stays_visible 1700000000000
    { id := "t", title := "x", categoryId := "c", timeBlock := TimeBlock.morning,
      status := TaskStatus.completed, completedAt := none, createdAt := some 1 }
    rfl rfl
  exact ⟨h.1, h.2 _ (by simp)⟩

/-- C9: the completion percentage is total and in range — `0` when no task
is visible (the division is guarded by the emptiness check), and otherwise
exactly `(completed visible / visible) * 100`, which lies in `[0, 100]`. -/
theorem C9_progress_total_in_range (todayStart : Int) (tasks : List Task) :
    0 ≤ calculateProgress todayStart tasks ∧
    calculateProgress todayStart tasks ≤ 100 ∧
    ((tasks.filter fun t => ! shouldHideTask todayStart t) = [] →
      calculateProgress todayStart tasks = 0) ∧
    ((tasks.filter fun t => ! shouldHideTask todayStart t) ≠ [] →
      calculateProgress todayStart tasks =
        (((tasks.filter fun t => ! shouldHideTask todayStart t).filter
              fun t => decide (t.status = TaskStatus.completed)).length : ℚ)
          / (((tasks.filter fun t => ! shouldHideTask todayStart t).length : ℚ)) * 100) := by
  unfold calculateProgress
  by_cases h : (tasks.filter fun t => ! shouldHideTask todayStart t).length = 0
  · rw [List.length_eq_zero] at h
    simp [h]
  · have hne : tasks.filter (fun t => ! shouldHideTask todayStart t) ≠ [] := by
      intro hnil
      exact h (by simp [hnil])
    have hlenpos : 0 < ((tasks.filter fun t => ! shouldHideTask todayStart t).length : ℚ) := by
      have := Nat.pos_of_ne_zero h
      exact_mod_cast this
    have hle : ((tasks.filter fun t => ! shouldHideTask todayStart t).filter
        (fun t => decide (t.status = TaskStatus.completed))).length
        ≤ (tasks.filter fun t => ! shouldHideTask todayStart t).length :=
      List.length_filter_le _ _
    have hfrac0 : (0 : ℚ) ≤
        (((tasks.filter fun t => ! shouldHideTask todayStart t).filter
            fun t => decide (t.status = TaskStatus.completed)).length : ℚ)
          / ((tasks.filter fun t => ! shouldHideTask todayStart t).length : ℚ) :=
      div_nonneg (by positivity) (le_of_lt hlenpos)
    have hfrac1 : (((tasks.filter fun t => ! shouldHideTask todayStart t).filter
            fun t => decide (t.status = TaskStatus.completed)).length : ℚ)
          / ((tasks.filter fun t => ! shouldHideTask todayStart t).length : ℚ) ≤ 1 := by
      rw [div_le_one hlenpos]
      exact_mod_cast hle
    simp only [h, if_false]
    refine ⟨by positivity, ?_, fun hcontra => absurd hcontra hne, ?_⟩
    · calc (((tasks.filter fun t => ! shouldHideTask todayStart t).filter
              fun t => decide (t.status = TaskStatus.completed)).length : ℚ)
            / ((tasks.filter fun t => ! shouldHideTask todayStart t).length : ℚ) * 100
          ≤ 1 * 100 := by
            exact mul_le_mul_of_nonneg_right hfrac1 (by norm_num)
        _ = 100 := by norm_num
    · intro _
      trivial

/-- C9 witness: with no tasks the progress is `0`, and with one visible
completed task it is `100`. -/
theorem C9_witness : calculateProgress 0 [] = 0 :=
  (C9_progress_total_in_range 0 []).2.2.1 rfl

/-- A list's `isEmpty` is `false` exactly when the list is not nil. -/
theorem isEmpty_eq_false_iff_ne_nil (l : List α) : l.isEmpty = false ↔ l ≠ [] := by
  cases l <;> simp

/-- The reference-check loop produces no error exactly when every task's
`categoryId` occurs among the valid ids. -/
theorem taskRefErrors_eq_nil (ids : List String) (i : Nat) (ts : List Task) :
    taskRefErrors ids i ts = [] ↔ ∀ t ∈ ts, t.categoryId ∈ ids := by
  induction ts generalizing i with
  | nil => simp [taskRefErrors]
  | cons t ts ih =>
    by_cases h : t.categoryId ∈ ids
    · simp [taskRefErrors, List.contains, h, ih]
    · simp [taskRefErrors, List.contains, h]

/-- Every offending task contributes its numbered error message to the
reference-check loop's output. -/
theorem refErrMsg_mem_taskRefErrors (ids : List String) (i j : Nat) (ts : List Task)
    (hj : j < ts.length) (hbad : (ts.get ⟨j, hj⟩).categoryId ∉ ids) :
    refErrMsg (i + j) (ts.get ⟨j, hj⟩) ∈ taskRefErrors ids i ts := by
  induction ts generalizing i j with
  | nil => simp at hj
  | cons t ts ih =>
    cases j with
    | zero =>
      simp only [List.get] at hbad ⊢
      simp [taskRefErrors, List.contains, hbad]
    | succ j =>
      simp only [List.get] at hbad ⊢
      have hrec := ih (i + 1) j (Nat.lt_of_succ_lt_succ hj) hbad
      have harith : i + 1 + j = i + (j + 1) := by omega
      rw [harith] at hrec
      simp only [taskRefErrors, List.mem_append]
      right
      exact hrec

/-- C3: import validation reports invalid (equivalently, a non-empty error
list) exactly when a collection is missing/not an array or some task
references an unknown category id; and every task whose `categoryId` is
absent from the supplied categories contributes its numbered error message,
so all offending tasks are enumerated. -/
theorem C3_import_validation (data : ImportPayload) :
    ((validateImportData data).valid = false ↔ (validateImportData data).errors ≠ []) ∧
    ((validateImportData data).valid = false ↔
      data.categories = none ∨ data.tasks = none ∨ data.notes = none ∨
      (∃ ts cs, data.tasks = some ts ∧ data.categories = some cs ∧
        ∃ t ∈ ts, ∀ c ∈ cs, c.id ≠ t.categoryId)) ∧
    (∀ ts cs, data.tasks = some ts → data.categories = some cs →
      ∀ (j : Nat) (hj : j < ts.length),
        (∀ c ∈ cs, c.id ≠ (ts.get ⟨j, hj⟩).categoryId) →
        refErrMsg j (ts.get ⟨j, hj⟩) ∈ (validateImportData data).errors) := by
  obtain ⟨oc, ot, onn⟩ := data
  refine ⟨isEmpty_eq_false_iff_ne_nil _, ?_, ?_⟩
  · cases oc with
    | none => cases ot <;> cases onn <;> simp [validateImportData]
    | some cs =>
      cases ot with
      | none => cases onn <;> simp [validateImportData]
      | some ts =>
        cases onn with
        | none => simp [validateImportData]
        | some ns =>
          have hval : (validateImportData ⟨some cs, some ts, some ns⟩).valid = false
              ↔ taskRefErrors (cs.map Category.id) 0 ts ≠ [] :=
            isEmpty_eq_false_iff_ne_nil _
          rw [hval, Ne, taskRefErrors_eq_nil]
          constructor
          · intro hnot
            push_neg at hnot
            obtain ⟨t, ht, hbad⟩ := hnot
            refine Or.inr (Or.inr (Or.inr ⟨ts, cs, rfl, rfl, t, ht,
              fun c hc hce => hbad ?_⟩))
            exact List.mem_map.mpr ⟨c, hc, hce⟩
          · rintro (h | h | h | ⟨ts', cs', hts, hcs, t, ht, hbad⟩)
            · simp at h
            · simp at h
            · simp at h
            · obtain rfl := Option.some.inj hts
              obtain rfl := Option.some.inj hcs
              intro hall
              obtain ⟨c, hc, hce⟩ := List.mem_map.mp (hall t ht)
              exact hbad c hc hce
  · intro ts' cs' hts hcs j hj hbad
    subst hts
    subst hcs
    have hnotmem : (ts'.get ⟨j, hj⟩).categoryId ∉ cs'.map Category.id := by
      intro hm
      obtain ⟨c, hc, hce⟩ := List.mem_map.mp hm
      exact hbad c hc hce
    have hmem := refErrMsg_mem_taskRefErrors (cs'.map Category.id) 0 j ts' hj hnotmem
    rw [Nat.zero_add] at hmem
    exact List.mem_append.mpr (Or.inr hmem)

/-- C3 witness: a payload with one category `c1` and one task referencing
the unknown category `zzz` is rejected, and the numbered error naming the
task is in the error list. -/
theorem C3_witness :
    (validateImportData
        { categories := some [{ id := "c1", label := "l", icon := "i",
                                theme := ColorTheme.sky }],
          tasks := some [{ id := "t1", title := "x", categoryId := "zzz",
                           timeBlock := TimeBlock.morning, status := TaskStatus.active,
                           completedAt := none, createdAt := none }],
          notes := some [] }).valid = false ∧
    refErrMsg 0
        { id := "t1", title := "x", categoryId := "zzz",
          timeBlock := TimeBlock.morning, status := TaskStatus.active,
          completedAt := none, createdAt := none }
      ∈ (validateImportData
          { categories := some [{ id := "c1", label := "l", icon := "i",
                                  theme := ColorTheme.sky }],
            tasks := some [{ id := "t1", title := "x", categoryId := "zzz",
                             timeBlock := TimeBlock.morning, status := TaskStatus.active,
                             completedAt := none, createdAt := none }],
            notes := some [] }).errors := by
  have h := C3_import_validation
    { categories := some [{ id := "c1", label := "l", icon := "i",
                            theme := ColorTheme.sky }],
      tasks := some [{ id := "t1", title := "x", categoryId := "zzz",
                       timeBlock := TimeBlock.morning, status := TaskStatus.active,
                       completedAt := none, createdAt := none }],
      notes := some [] }
  constructor
  · refine h.2.1.mpr (Or.inr (Or.inr (Or.inr ⟨_, _, rfl, rfl, ?_⟩)))
    refine ⟨_, List.mem_singleton.mpr rfl, ?_⟩
    intro c hc
    rw [List.mem_singleton.mp hc]
    decide
  · exact h.2.2 _ _ rfl rfl 0 (by decide) (by
      intro c hc
      rw [List.mem_singleton.mp hc]
      decide)

/-- C10: the quick-notes list is kept sorted by `createdAt` descending —
the initial load and an import install a sorted list, deletion preserves
sortedness, and adding prepends the new note, which preserves sortedness
whenever the new note's `createdAt` is at least every existing one's. -/
theorem C10_notes_sorted_desc :
    (∀ dbNotes : List Note, NotesSortedDesc (initLoadNotes dbNotes)) ∧
    (∀ newNotes : List Note, NotesSortedDesc (importNotes newNotes)) ∧
    (∀ (id : String) (notes : List Note), NotesSortedDesc notes →
      NotesSortedDesc (handleDeleteNote id notes)) ∧
    (∀ (now : Nat) (content : String) (theme : ColorTheme) (notes : List Note),
      handleAddNote now content theme notes =
        { id := Nat.repr now, content := content, createdAt := now,
          theme := theme } :: notes) ∧
    (∀ (now : Nat) (content : String) (theme : ColorTheme) (notes : List Note),
      NotesSortedDesc notes → (∀ m ∈ notes, m.createdAt ≤ now) →
      NotesSortedDesc (handleAddNote now content theme notes)) := by
  have htrans : ∀ a b c : Note,
      (fun a b : Note => decide (b.createdAt ≤ a.createdAt)) a b →
      (fun a b : Note => decide (b.createdAt ≤ a.createdAt)) b c →
      (fun a b : Note => decide (b.createdAt ≤ a.createdAt)) a c := by
    intro a b c hab hbc
    simp only [decide_eq_true_eq] at hab hbc ⊢
    omega
  have htotal : ∀ a b : Note,
      (fun a b : Note => decide (b.createdAt ≤ a.createdAt)) a b
        || (fun a b : Note => decide (b.createdAt ≤ a.createdAt)) b a := by
    intro a b
    rcases Nat.le_total a.createdAt b.createdAt with h | h <;> simp [h]
  have hsort : ∀ l : List Note, NotesSortedDesc (sortNotesDesc l) := by
    intro l
    have h := List.sorted_mergeSort htrans htotal l
    exact h.imp fun hab => of_decide_eq_true hab
  refine ⟨hsort, hsort, ?_, fun _ _ _ _ => rfl, ?_⟩
  · intro id notes hs
    exact hs.filter _
  · intro now content theme notes hs hmax
    refine List.pairwise_cons.mpr ⟨?_, hs⟩
    intro m hm
    exact hmax m hm

/-- C10 witness: sorting a concrete unsorted pair yields a sorted list, and
prepending a newer note to a sorted singleton stays sorted. -/
theorem C10_witness :
    NotesSortedDesc (initLoadNotes
      [{ id := "n1", content := "a", createdAt := 5, theme := ColorTheme.sky },
       { id := "n2", content := "b", createdAt := 9, theme := ColorTheme.rose }]) ∧
    NotesSortedDesc (handleAddNote 10 "c" ColorTheme.amber
      [{ id := "n2", content := "b", createdAt := 9, theme := ColorTheme.rose }]) := by
  have h := C10_notes_sorted_desc
  refine ⟨h.1 _, ?_⟩
  refine h.2.2.2.2 10 "c" ColorTheme.amber _ ?_ ?_
  · exact List.pairwise_singleton _ _
  · intro m hm
    rw [List.mem_singleton.mp hm]
    decide

/-- The seven palette names have distinct string forms. -/
theorem ColorTheme_name_inj (a b : ColorTheme) (h : a.name = b.name) : a = b := by
  cases a <;> cases b <;> first | rfl | (exfalso; simp [ColorTheme.name] at h)

/-- The three time blocks have distinct string forms. -/
theorem TimeBlock_name_inj (a b : TimeBlock) (h : a.name = b.name) : a = b := by
  cases a <;> cases b <;> first | rfl | (exfalso; simp [TimeBlock.name] at h)

/-- The two statuses have distinct string forms. -/
theorem TaskStatus_name_inj (a b : TaskStatus) (h : a.name = b.name) : a = b := by
  cases a <;> cases b <;> first | rfl | (exfalso; simp [TaskStatus.name] at h)

/-- Categories with the same serialized form are equal. -/
theorem encodeCategory_inj (a b : Category) (h : encodeCategory a = encodeCategory b) :
    a = b := by
  cases a
  cases b
  simp only [encodeCategory, Json.obj.injEq, List.cons.injEq, Prod.mk.injEq,
    Json.str.injEq, and_true, true_and] at h
  obtain ⟨h1, h2, h3, h4⟩ := h
  simp_all [ColorTheme_name_inj _ _ h4]

/-- Tasks with the same serialized form are equal (the optional
`completedAt` / `createdAt` properties are distinguished by their keys). -/
theorem encodeTask_inj (a b : Task) (h : encodeTask a = encodeTask b) : a = b := by
  cases a with
  | mk aid atitle acat ablk ast acomp acreated =>
  cases b with
  | mk bid btitle bcat bblk bst bcomp bcreated =>
  cases acomp <;> cases bcomp <;> cases acreated <;> cases bcreated <;>
    simp only [encodeTask, encodeOptNum, Json.obj.injEq, List.cons.injEq, Prod.mk.injEq,
      List.append_nil, List.nil_append, List.cons_append, List.append_assoc,
      Json.str.injEq, Json.num.injEq, and_true, true_and] at h <;>
    simp_all <;>
    exact ⟨TimeBlock_name_inj _ _ (by tauto), TaskStatus_name_inj _ _ (by tauto)⟩

/-- Notes with the same serialized form are equal. -/
theorem encodeNote_inj (a b : Note) (h : encodeNote a = encodeNote b) : a = b := by
  cases a
  cases b
  simp only [encodeNote, Json.obj.injEq, List.cons.injEq, Prod.mk.injEq,
    Json.str.injEq, Json.num.injEq, and_true, true_and] at h
  obtain ⟨h1, h2, h3, h4⟩ := h
  simp_all [ColorTheme_name_inj _ _ h4]

/-- C4: exporting and then importing round-trips the data.  Import accepts
every exported file and returns exactly the serialized forms of the original
categories, tasks and notes (the `exportedAt` and `version` envelope fields
are not compared), and each serialization is injective, so the returned
collections determine the original data; tree equality of the `Json` values
is byte equality of the serialized file. -/
theorem C4_export_import_roundtrip :
    (∀ (categories : List Category) (tasks : List Task) (notes : List Note)
        (exportedAt : String),
      importDataFromJSON (exportDataAsJSON categories tasks notes exportedAt) =
        Except.ok { categories := categories.map encodeCategory,
                    tasks := tasks.map encodeTask,
                    notes := notes.map encodeNote }) ∧
    (∀ a b : Category, encodeCategory a = encodeCategory b → a = b) ∧
    (∀ a b : Task, encodeTask a = encodeTask b → a = b) ∧
    (∀ a b : Note, encodeNote a = encodeNote b → a = b) :=
  ⟨fun _ _ _ _ => rfl, encodeCategory_inj, encodeTask_inj, encodeNote_inj⟩

/-- C4 witness: a concrete one-element export is imported back as exactly
the encodings of the originals, and equal encodings give equal data. -/
theorem C4_witness :
    importDataFromJSON (exportDataAsJSON
        [{ id := "c1", label := "l", icon := "i", theme := ColorTheme.sky }]
        [{ id := "t1", title := "x", categoryId := "c1",
           timeBlock := TimeBlock.morning, status := TaskStatus.active,
           completedAt := none, createdAt := some 7 }]
        [{ id := "n1", content := "note", createdAt := 3, theme := ColorTheme.rose }]
        "2024-01-01T00:00:00.000Z") =
      Except.ok
        { categories := [encodeCategory
            { id := "c1", label := "l", icon := "i", theme := ColorTheme.sky }],
          tasks := [encodeTask
            { id := "t1", title := "x", categoryId := "c1",
              timeBlock := TimeBlock.morning, status := TaskStatus.active,
              completedAt := none, createdAt := some 7 }],
          notes := [encodeNote
            { id := "n1", content := "note", createdAt := 3,
              theme := ColorTheme.rose }] } ∧
    ({ id := "c1", label := "l", icon := "i", theme := ColorTheme.sky } : Category)
      = { id := "c1", label := "l", icon := "i", theme := ColorTheme.sky } := by
  have h := C4_export_import_roundtrip
  exact ⟨h.1 _ _ _ _, h.2.1 _ _ rfl⟩

/-- Inserting at a valid index is a permutation of consing. -/
theorem perm_insertIdx {α : Type} (x : α) :
    ∀ (l : List α) (n : Nat), n ≤ l.length → List.Perm (l.insertIdx n x) (x :: l) := by
  intro l
  induction l with
  | nil =>
    intro n hn
    have hn0 : n = 0 := Nat.le_zero.mp (by simpa using hn)
    subst hn0
    simp
  | cons a l ih =>
    intro n hn
    cases n with
    | zero => simp
    | succ n =>
      rw [List.insertIdx_succ_cons]
      exact ((ih n (by simpa using hn)).cons a).trans (List.Perm.swap x a l)

/-- Removing the element at a valid index and putting it back in front is a
permutation of the original list. -/
theorem get_cons_eraseIdx_perm {α : Type} :
    ∀ (l : List α) (i : Nat) (h : i < l.length),
      List.Perm (l.get ⟨i, h⟩ :: l.eraseIdx i) l := by
  intro l
  induction l with
  | nil => intro i h; simp at h
  | cons a l ih =>
    intro i h
    cases i with
    | zero => simp
    | succ i =>
      have hi : i < l.length := by simpa using h
      have step : List.Perm ((a :: l).get ⟨i + 1, h⟩ :: (a :: l).eraseIdx (i + 1))
          (a :: (l.get ⟨i, hi⟩ :: l.eraseIdx i)) := List.Perm.swap _ _ _
      exact step.trans ((ih i hi).cons a)

/-- The dnd-kit `arrayMove` only reorders: its result is a permutation of
its input, for every pair of (possibly negative) indices. -/
theorem arrayMove_perm {α : Type} (l : List α) (src dst : Int) :
    List.Perm (arrayMove l src dst) l := by
  unfold arrayMove
  by_cases h : (if src < 0 then ((l.length : Int) + src).toNat
      else min src.toNat l.length) < l.length
  · rw [dif_pos h]
    set srcIdx := if src < 0 then ((l.length : Int) + src).toNat
      else min src.toNat l.length with hsrc
    set rest := l.eraseIdx srcIdx with hrest
    set dstShift : Int := if dst < 0 then (rest.length : Int) + dst else dst with hshift
    set dstIdx := if dstShift < 0 then ((rest.length : Int) + dstShift).toNat
      else min dstShift.toNat rest.length with hdst
    have hle : dstIdx ≤ rest.length := by
      rw [hdst]
      by_cases hneg : dstShift < 0
      · simp only [hneg, if_pos]
        omega
      · simp only [hneg, if_neg]
        exact Nat.min_le_right _ _
    exact (perm_insertIdx _ rest dstIdx hle).trans (get_cons_eraseIdx_perm l srcIdx h)
  · rw [dif_neg h]

/-- `handleDragOver` either leaves the list unchanged or retargets exactly
the dragged task to the time block of the drop target. -/
theorem handleDragOver_characterization (tasks : List Task) (activeId overId : String)
    (overIsContainer : Bool) :
    handleDragOver tasks activeId overId overIsContainer = tasks ∨
    ∃ blk, dropTargetBlock tasks overId overIsContainer = some blk ∧
      handleDragOver tasks activeId overId overIsContainer =
        tasks.map fun t => if t.id = activeId then { t with timeBlock := blk } else t := by
  cases hA : tasks.find? (fun t => decide (t.id = activeId)) with
  | none => exact Or.inl (by simp [handleDragOver, hA])
  | some activeTask =>
    cases hT : (if overIsContainer then TimeBlock.ofString? overId else none) with
    | some blk =>
      by_cases hne : activeTask.timeBlock = blk
      · refine Or.inl ?_
        simp [handleDragOver, hA, hT, hne]
      · refine Or.inr ⟨blk, ?_, ?_⟩
        · simp [dropTargetBlock, hT]
        · simp [handleDragOver, hA, hT, hne]
    | none =>
      cases hO : tasks.find? (fun t => decide (t.id = overId)) with
      | none =>
        refine Or.inl ?_
        simp [handleDragOver, hA, hT, hO]
      | some overTask =>
        by_cases hne : activeTask.timeBlock = overTask.timeBlock
        · refine Or.inl ?_
          simp [handleDragOver, hA, hT, hO, hne]
        · refine Or.inr ⟨overTask.timeBlock, ?_, ?_⟩
          · simp [dropTargetBlock, hT, hO]
          · simp [handleDragOver, hA, hT, hO, hne]

/-- `handleDragOver` never changes any field except the dragged task's
`timeBlock`, and leaves every other task identical. -/
theorem handleDragOver_frame (tasks : List Task) (activeId overId : String)
    (overIsContainer : Bool) :
    List.Forall₂ (fun t u => u.id = t.id ∧ u.title = t.title ∧ u.categoryId = t.categoryId ∧
        u.status = t.status ∧ u.completedAt = t.completedAt ∧ u.createdAt = t.createdAt ∧
        (t.id ≠ activeId → u = t))
      tasks (handleDragOver tasks activeId overId overIsContainer) := by
  rcases handleDragOver_characterization tasks activeId overId overIsContainer with
    h | ⟨blk, _, h⟩
  · rw [h]
    exact List.forall₂_same.mpr fun t _ => ⟨rfl, rfl, rfl, rfl, rfl, rfl, fun _ => rfl⟩
  · rw [h]
    rw [List.forall₂_map_right_iff]
    refine List.forall₂_same.mpr fun t _ => ?_
    by_cases hid : t.id = activeId
    · rw [if_pos hid]
      exact ⟨rfl, rfl, rfl, rfl, rfl, rfl, fun hne => absurd hid hne⟩
    · rw [if_neg hid]
      exact ⟨rfl, rfl, rfl, rfl, rfl, rfl, fun _ => rfl⟩

/-- `handleDragEnd` only permutes the list: other lanes keep their exact
sequence, and the active lane undergoes the `arrayMove` at the indices found
in the visible lane. -/
theorem handleDragEnd_characterization (todayStart : Int) (tasks : List Task)
    (activeId overId : String) :
    List.Perm (handleDragEnd todayStart tasks activeId overId) tasks ∧
    (handleDragEnd todayStart tasks activeId overId = tasks ∨
      ∃ blk,
        (∀ b, b ≠ blk →
          (handleDragEnd todayStart tasks activeId overId).filter
              (fun t => decide (t.timeBlock = b)) =
            tasks.filter (fun t => decide (t.timeBlock = b))) ∧
        (handleDragEnd todayStart tasks activeId overId).filter
            (fun t => decide (t.timeBlock = blk)) =
          arrayMove (tasks.filter (fun t => decide (t.timeBlock = blk)))
            (jsFindIndex (fun t => decide (t.id = activeId))
              (getTasksByBlock todayStart tasks blk))
            (jsFindIndex (fun t => decide (t.id = overId))
              (getTasksByBlock todayStart tasks blk))) := by
  cases hA : tasks.find? (fun t => decide (t.id = activeId)) with
  | none =>
    have hr : handleDragEnd todayStart tasks activeId overId = tasks := by
      simp [handleDragEnd, hA]
    rw [hr]
    exact ⟨List.Perm.refl _, Or.inl rfl⟩
  | some activeTask =>
    cases hO : tasks.find? (fun t => decide (t.id = overId)) with
    | none =>
      have hr : handleDragEnd todayStart tasks activeId overId = tasks := by
        simp [handleDragEnd, hA, hO]
      rw [hr]
      exact ⟨List.Perm.refl _, Or.inl rfl⟩
    | some overTask =>
      by_cases hblk : activeTask.timeBlock = overTask.timeBlock
      · by_cases hidx :
            jsFindIndex (fun t => decide (t.id = activeId))
                (getTasksByBlock todayStart tasks activeTask.timeBlock)
              ≠ jsFindIndex (fun t => decide (t.id = overId))
                (getTasksByBlock todayStart tasks activeTask.timeBlock)
        · have hr : handleDragEnd todayStart tasks activeId overId =
              tasks.filter (fun t => ! decide (t.timeBlock = activeTask.timeBlock))
                ++ arrayMove
                    (tasks.filter (fun t => decide (t.timeBlock = activeTask.timeBlock)))
                    (jsFindIndex (fun t => decide (t.id = activeId))
                      (getTasksByBlock todayStart tasks activeTask.timeBlock))
                    (jsFindIndex (fun t => decide (t.id = overId))
                      (getTasksByBlock todayStart tasks activeTask.timeBlock)) := by
            simp only [handleDragEnd, hA, hO]
            rw [if_pos hblk, if_pos hidx]
          rw [hr]
          have hmove := arrayMove_perm
            (tasks.filter (fun t => decide (t.timeBlock = activeTask.timeBlock)))
            (jsFindIndex (fun t => decide (t.id = activeId))
              (getTasksByBlock todayStart tasks activeTask.timeBlock))
            (jsFindIndex (fun t => decide (t.id = overId))
              (getTasksByBlock todayStart tasks activeTask.timeBlock))
          constructor
          · have hoc : List.Perm
                (tasks.filter (fun t => ! decide (t.timeBlock = activeTask.timeBlock))
                  ++ tasks.filter (fun t => decide (t.timeBlock = activeTask.timeBlock)))
                tasks := by
              have hperm := List.filter_append_perm
                (fun t : Task => ! decide (t.timeBlock = activeTask.timeBlock)) tasks
              simpa [Bool.not_not] using hperm
            exact (hmove.append_left _).trans hoc
          · refine Or.inr ⟨activeTask.timeBlock, ?_, ?_⟩
            · intro b hb
              rw [List.filter_append]
              have hmove_nil : (arrayMove
                  (tasks.filter (fun t => decide (t.timeBlock = activeTask.timeBlock)))
                  (jsFindIndex (fun t => decide (t.id = activeId))
                    (getTasksByBlock todayStart tasks activeTask.timeBlock))
                  (jsFindIndex (fun t => decide (t.id = overId))
                    (getTasksByBlock todayStart tasks activeTask.timeBlock))).filter
                    (fun t => decide (t.timeBlock = b)) = [] := by
                refine List.filter_eq_nil_iff.mpr fun x hx => ?_
                have hxc := hmove.mem_iff.mp hx
                have hxblk := (List.mem_filter.mp hxc).2
                simp only [decide_eq_true_eq] at hxblk ⊢
                rw [hxblk]
                exact fun hcontra => hb hcontra.symm
              rw [hmove_nil, List.append_nil, List.filter_filter]
              refine List.filter_congr fun x hx => ?_
              by_cases hxb : x.timeBlock = b
              · have hxblk : ¬ x.timeBlock = activeTask.timeBlock := by
                  rw [hxb]
                  exact hb
                simp [hxb, hxblk, hb]
              · simp [hxb]
            · rw [List.filter_append]
              have hother_nil : (tasks.filter
                  (fun t => ! decide (t.timeBlock = activeTask.timeBlock))).filter
                    (fun t => decide (t.timeBlock = activeTask.timeBlock)) = [] := by
                refine List.filter_eq_nil_iff.mpr fun x hx => ?_
                have hxo := (List.mem_filter.mp hx).2
                simp only [Bool.not_eq_true, decide_eq_false_iff_not] at hxo  -- hxo : ¬ =
                simpa using hxo
              rw [hother_nil, List.nil_append]
              refine List.filter_eq_self.mpr fun x hx => ?_
              have hxc := hmove.mem_iff.mp hx
              exact (List.mem_filter.mp hxc).2
        · have hr : handleDragEnd todayStart tasks activeId overId = tasks := by
            simp only [handleDragEnd, hA, hO]
            rw [if_pos hblk, if_neg hidx]
          rw [hr]
          exact ⟨List.Perm.refl _, Or.inl rfl⟩
      · have hr : handleDragEnd todayStart tasks activeId overId = tasks := by
          simp only [handleDragEnd, hA, hO]
          rw [if_neg hblk]
        rw [hr]
        exact ⟨List.Perm.refl _, Or.inl rfl⟩

/-- C5: a drag into a different lane (over a lane container or over a task
of another lane) changes only the dragged task's `timeBlock` — all its other
fields and all other tasks are untouched — and a drop within the same lane
only reorders that lane via the standard array move at the computed indices:
the result is a permutation of the task list, every other lane keeps its
exact sequence, and the dragged lane's list equals `arrayMove` of itself. -/
theorem C5_drag_frame_and_reorder :
    (∀ (tasks : List Task) (activeId overId : String) (overIsContainer : Bool),
      handleDragOver tasks activeId overId overIsContainer = tasks ∨
      ∃ blk, dropTargetBlock tasks overId overIsContainer = some blk ∧
        handleDragOver tasks activeId overId overIsContainer =
          tasks.map fun t =>
            if t.id = activeId then { t with timeBlock := blk } else t) ∧
    (∀ (tasks : List Task) (activeId overId : String) (overIsContainer : Bool),
      List.Forall₂ (fun t u => u.id = t.id ∧ u.title = t.title ∧
          u.categoryId = t.categoryId ∧ u.status = t.status ∧
          u.completedAt = t.completedAt ∧ u.createdAt = t.createdAt ∧
          (t.id ≠ activeId → u = t))
        tasks (handleDragOver tasks activeId overId overIsContainer)) ∧
    (∀ (todayStart : Int) (tasks : List Task) (activeId overId : String),
      List.Perm (handleDragEnd todayStart tasks activeId overId) tasks ∧
      (handleDragEnd todayStart tasks activeId overId = tasks ∨
        ∃ blk,
          (∀ b, b ≠ blk →
            (handleDragEnd todayStart tasks activeId overId).filter
                (fun t => decide (t.timeBlock = b)) =
              tasks.filter (fun t => decide (t.timeBlock = b))) ∧
          (handleDragEnd todayStart tasks activeId overId).filter
              (fun t => decide (t.timeBlock = blk)) =
            arrayMove (tasks.filter (fun t => decide (t.timeBlock = blk)))
              (jsFindIndex (fun t => decide (t.id = activeId))
                (getTasksByBlock todayStart tasks blk))
              (jsFindIndex (fun t => decide (t.id = overId))
                (getTasksByBlock todayStart tasks blk)))) :=
  ⟨handleDragOver_characterization, handleDragOver_frame,
    handleDragEnd_characterization⟩

/-- C5 witness: on a concrete two-task board, a same-lane drop permutes the
list, and a drag over the other lane's container keeps every field except
`timeBlock` and every other task unchanged. -/
theorem C5_witness :
    List.Perm (handleDragEnd 0
        [{ id := "1", title := "a", categoryId := "c", timeBlock := TimeBlock.morning,
           status := TaskStatus.active, completedAt := none, createdAt := some 1 },
         { id := "2", title := "b", categoryId := "c", timeBlock := TimeBlock.morning,
           status := TaskStatus.active, completedAt := none, createdAt := some 2 }]
        "1" "2")
      [{ id := "1", title := "a", categoryId := "c", timeBlock := TimeBlock.morning,
         status := TaskStatus.active, completedAt := none, createdAt := some 1 },
       { id := "2", title := "b", categoryId := "c", timeBlock := TimeBlock.morning,
         status := TaskStatus.active, completedAt := none, createdAt := some 2 }] ∧
    List.Forall₂ (fun t u => u.id = t.id ∧ u.title = t.title ∧
        u.categoryId = t.categoryId ∧ u.status = t.status ∧
        u.completedAt = t.completedAt ∧ u.createdAt = t.createdAt ∧
        (t.id ≠ "1" → u = t))
      [{ id := "1", title := "a", categoryId := "c", timeBlock := TimeBlock.morning,
         status := TaskStatus.active, completedAt := none, createdAt := some 1 }]
      (handleDragOver
        [{ id := "1", title := "a", categoryId := "c", timeBlock := TimeBlock.morning,
           status := TaskStatus.active, completedAt := none, createdAt := some 1 }]
        "1" "afternoon" true) :=
  ⟨(C5_drag_frame_and_reorder.2.2 0 _ "1" "2").1,
    C5_drag_frame_and_reorder.2.1 _ "1" "afternoon" true⟩

/-- The accumulator of `Nat.toDigitsCore` is simply appended to the digits. -/
theorem toDigitsCore_append (fuel : Nat) :
    ∀ (n : Nat) (ds : List Char),
      Nat.toDigitsCore 10 fuel n ds = Nat.toDigitsCore 10 fuel n [] ++ ds := by
  induction fuel with
  | zero => intro n ds; simp [Nat.toDigitsCore]
  | succ fuel ih =>
    intro n ds
    simp only [Nat.toDigitsCore]
    by_cases h : n / 10 = 0
    · simp [h]
    · simp only [h, if_false]
      rw [ih (n / 10) (Nat.digitChar (n % 10) :: ds),
          ih (n / 10) [Nat.digitChar (n % 10)]]
      simp

/-- Reading back a decimal digit character gives the digit. -/
theorem charVal_digitChar (m : Nat) (h : m < 10) : charVal (Nat.digitChar m) = m := by
  interval_cases m <;> decide

/-- With enough fuel, reading the digit string of `n` back gives `n`. -/
theorem digitsVal_toDigitsCore (fuel : Nat) :
    ∀ n, n < fuel → digitsVal (Nat.toDigitsCore 10 fuel n []) = n := by
  induction fuel with
  | zero => intro n h; omega
  | succ fuel ih =>
    intro n h
    simp only [Nat.toDigitsCore]
    by_cases h0 : n / 10 = 0
    · have hn : n < 10 := by omega
      rw [if_pos h0]
      show 0 * 10 + charVal (Nat.digitChar (n % 10)) = n
      rw [charVal_digitChar (n % 10) (Nat.mod_lt n (by omega))]
      omega
    · rw [if_neg h0]
      rw [toDigitsCore_append]
      have hlt : n / 10 < fuel := by
        have h1 : n / 10 < n := Nat.div_lt_self (by omega) (by omega)
        omega
      show digitsVal (Nat.toDigitsCore 10 fuel (n / 10) [] ++ [Nat.digitChar (n % 10)]) = n
      rw [digitsVal, List.foldl_append]
      show digitsVal (Nat.toDigitsCore 10 fuel (n / 10) []) * 10
          + charVal (Nat.digitChar (n % 10)) = n
      rw [ih (n / 10) hlt, charVal_digitChar (n % 10) (Nat.mod_lt n (by omega))]
      omega

/-- Distinct naturals have distinct decimal string forms: distinct
`Date.now()` readings give distinct ids. -/
theorem repr_injective : Function.Injective Nat.repr := by
  intro m n h
  have hdata : Nat.toDigits 10 m = Nat.toDigits 10 n := congrArg String.data h
  have hm := digitsVal_toDigitsCore (m + 1) m (by omega)
  have hn := digitsVal_toDigitsCore (n + 1) n (by omega)
  simp only [Nat.toDigits] at hdata
  rw [← hm, hdata]
  exact hn

/-- A digit string produced with nonzero fuel starts with a decimal digit. -/
theorem toDigitsCore_head (fuel : Nat) :
    ∀ (n : Nat) (ds : List Char), fuel ≠ 0 →
      ∃ m, m < 10 ∧ (Nat.toDigitsCore 10 fuel n ds).head? = some (Nat.digitChar m) := by
  induction fuel with
  | zero => intro n ds h; omega
  | succ fuel ih =>
    intro n ds _
    simp only [Nat.toDigitsCore]
    by_cases h0 : n / 10 = 0
    · rw [if_pos h0]
      exact ⟨n % 10, Nat.mod_lt n (by omega), rfl⟩
    · rw [if_neg h0]
      cases fuel with
      | zero => exact ⟨n % 10, Nat.mod_lt n (by omega), rfl⟩
      | succ f => exact ih (n / 10) (Nat.digitChar (n % 10) :: ds) (by omega)

/-- `Nat.repr` always starts with a decimal digit character. -/
theorem repr_head_digit (n : Nat) :
    ∃ m, m < 10 ∧ (Nat.repr n).data.head? = some (Nat.digitChar m) :=
  toDigitsCore_head (n + 1) n [] (by omega)

/-- A timestamp id can never collide with the seeded category ids, which
start with a letter. -/
theorem repr_ne_seed (n : Nat) : Nat.repr n ≠ "cat1" ∧ Nat.repr n ≠ "cat2" := by
  obtain ⟨m, hm, hh⟩ := repr_head_digit n
  constructor <;> intro hcontra <;> rw [hcontra] at hh <;> revert hh <;>
    interval_cases m <;> decide
/-- The ids present after running a trace of create operations from any
start state: appended task ids, appended category ids, prepended note ids,
each the decimal form of the operation's clock reading. -/
theorem runCreateOps_ids (ops : List CreateOp) :
    ∀ s : AppState,
      ((ops.foldl applyCreateOp s).tasks.map Task.id
          = s.tasks.map Task.id ++ (taskTimes ops).map Nat.repr) ∧
      ((ops.foldl applyCreateOp s).categories.map Category.id
          = s.categories.map Category.id ++ (catTimes ops).map Nat.repr) ∧
      ((ops.foldl applyCreateOp s).quickNotes.map Note.id
          = ((noteTimes ops).reverse).map Nat.repr ++ s.quickNotes.map Note.id) := by
  induction ops with
  | nil => intro s; simp [taskTimes, catTimes, noteTimes]
  | cons op ops ih =>
    intro s
    obtain ⟨h1, h2, h3⟩ := ih (applyCreateOp s op)
    cases op with
    | addTask now title catId blk =>
      refine ⟨?_, ?_, ?_⟩ <;>
        simp_all [applyCreateOp, handleAddTask, taskTimes, catTimes, noteTimes]
    | addCategory now label theme icon =>
      refine ⟨?_, ?_, ?_⟩ <;>
        simp_all [applyCreateOp, handleAddCategory, taskTimes, catTimes, noteTimes]
    | addNote now content theme =>
      refine ⟨?_, ?_, ?_⟩ <;>
        simp_all [applyCreateOp, handleAddNote, taskTimes, catTimes, noteTimes]

/-- C6 amended: from the seeded initial state, any sequence of create
operations keeps ids unique per collection, provided no two operations in
the same collection use the same `Date.now()` reading.  (Without that
proviso the claim fails: ids are bare millisecond timestamps.) -/
theorem C6_amended (ops : List CreateOp)
    (htasks : (taskTimes ops).Nodup) (hcats : (catTimes ops).Nodup)
    (hnotes : (noteTimes ops).Nodup) :
    ((runCreateOps ops).tasks.map Task.id).Nodup ∧
    ((runCreateOps ops).categories.map Category.id).Nodup ∧
    ((runCreateOps ops).quickNotes.map Note.id).Nodup := by
  obtain ⟨h1, h2, h3⟩ := runCreateOps_ids ops initialState
  rw [runCreateOps] at *
  refine ⟨?_, ?_, ?_⟩
  · rw [h1]
    simp only [initialState, INITIAL_TASKS, List.map_nil, List.nil_append]
    exact htasks.map repr_injective
  · rw [h2]
    rw [List.nodup_append]
    refine ⟨by decide, hcats.map repr_injective, ?_⟩
    intro a ha hb
    obtain ⟨t, _, hta⟩ := List.mem_map.mp hb
    have hseed := repr_ne_seed t
    have : a = "cat1" ∨ a = "cat2" := by
      simpa [initialState, DEFAULT_CATEGORIES] using ha
    rcases this with rfl | rfl
    · exact hseed.1 hta
    · exact hseed.2 hta
  · rw [h3]
    simp only [initialState, List.map_nil, List.append_nil]
    exact (List.nodup_reverse.mpr hnotes).map repr_injective

/-- C6 counterexample: two tasks created at the same millisecond (clock
reading 1000) both get id `\"1000\"`, so task ids are not unique for every
sequence of create operations, as the claim states. -/
theorem C6_counterexample :
    ¬ (((runCreateOps [CreateOp.addTask 1000 "a" "c" TimeBlock.morning,
         CreateOp.addTask 1000 "b" "c" TimeBlock.morning]).tasks.map Task.id).Nodup) := by
  decide

/-- C6 witness: a concrete trace with distinct clock readings yields unique
ids in all three collections. -/
theorem C6_witness :
    ((runCreateOps [CreateOp.addTask 1 "a" "c" TimeBlock.morning,
        CreateOp.addCategory 2 "l" ColorTheme.sky "i",
        CreateOp.addNote 3 "m" ColorTheme.rose,
        CreateOp.addTask 4 "b" "c" TimeBlock.evening]).tasks.map Task.id).Nodup ∧
    ((runCreateOps [CreateOp.addTask 1 "a" "c" TimeBlock.morning,
        CreateOp.addCategory 2 "l" ColorTheme.sky "i",
        CreateOp.addNote 3 "m" ColorTheme.rose,
        CreateOp.addTask 4 "b" "c" TimeBlock.evening]).categories.map Category.id).Nodup ∧
    ((runCreateOps [CreateOp.addTask 1 "a" "c" TimeBlock.morning,
        CreateOp.addCategory 2 "l" ColorTheme.sky "i",
        CreateOp.addNote 3 "m" ColorTheme.rose,
        CreateOp.addTask 4 "b" "c" TimeBlock.evening]).quickNotes.map Note.id).Nodup :=
  C6_amended _ (by decide) (by decide) (by decide)
end CafePlanner
